import Mathlib

/-!
Shallow embedding of the movie-request Telegram bot (src/bot.py) and proofs
of the specified properties of its search and request-tracking logic.

The persistent store (the Mongo `movie_requests` collection) is modelled as an
ordered list of documents; `find_one`, `update_one` and `delete_one` act on the
first matching document, as the Mongo driver does.  External collaborators
(the fuzzy scorer, the HTTP fetch outcome, per-recipient delivery success) are
parameters of the corresponding functions.
-/

namespace MovieBot

/-- A Movie Request Record, as inserted at src/bot.py line 184-186:
`{"movie_name": ..., "times": ..., "user_requested": [...]}`. -/
structure MovieRequest where
  movie_name : String
  times : Nat
  user_requested : List Nat
deriving Repr, DecidableEq

/-- The `movie_requests` collection, as an ordered list of documents. -/
abbrev Store := List MovieRequest

/-- `requests_collection.find_one({"movie_name": name})`: the first document
whose `movie_name` equals `name`, if any. -/
def find_one (store : Store) (name : String) : Option MovieRequest :=
  store.find? (fun r => r.movie_name == name)

/-- Mongo `$addToSet`: append the value at the end of the array iff absent. -/
def addToSet (l : List Nat) (u : Nat) : List Nat :=
  if u ∈ l then l else l ++ [u]

/-- The update document of src/bot.py line 181:
`{"$inc": {"times": 1}, "$addToSet": {"user_requested": user.id}}`. -/
def applyNoUpdate (u : Nat) (r : MovieRequest) : MovieRequest :=
  { r with times := r.times + 1, user_requested := addToSet r.user_requested u }

/-- `update_one({"movie_name": name}, ...)`: apply `f` to the first matching
document, leaving the rest of the collection unchanged. -/
def update_one (store : Store) (name : String) (f : MovieRequest → MovieRequest) : Store :=
  match store with
  | [] => []
  | r :: rest => if r.movie_name == name then f r :: rest else r :: update_one rest name f

/-- `delete_one({"movie_name": name})`: remove the first matching document;
the second component is `deleted_count`. -/
def delete_one (store : Store) (name : String) : Store × Nat :=
  match store with
  | [] => ([], 0)
  | r :: rest =>
    if r.movie_name == name then (rest, 1)
    else
      let p := delete_one rest name
      (r :: p.1, p.2)

/-- The `response_no` branch of `button_callback` (src/bot.py lines 174-186):
look up the record; if the user already requested, do nothing; if the record
exists without this user, increment `times` and `$addToSet` the user; else
insert a fresh record with `times = 1` and `user_requested = [user.id]`. -/
def negFeedback (store : Store) (movie_name : String) (userId : Nat) : Store :=
  match find_one store movie_name with
  | some req =>
    if userId ∈ req.user_requested then store
    else update_one store movie_name (applyNoUpdate userId)
  | none => store ++ [⟨movie_name, 1, [userId]⟩]

/-- Python `str.split(sep)` for a one-character separator, on character lists:
`"a||b".split("|") = ["a", "", "b"]` and `"".split("|") = [""]`. -/
def pySplitChars (sep : Char) : List Char → List (List Char)
  | [] => [[]]
  | c :: cs =>
    if c = sep then [] :: pySplitChars sep cs
    else
      match pySplitChars sep cs with
      | [] => [[c]]
      | h :: t => (c :: h) :: t

/-- Python `str.split(sep)` on strings. -/
def pySplit (sep : Char) (s : String) : List String :=
  (pySplitChars sep s.toList).map List.asString

/-- `button_callback` (src/bot.py lines 162-190) restricted to its effect on
the store: split `query.data` on `"|"`, read the action and the movie name;
only the `response_no` action mutates the store.  A payload with fewer than
two fields raises an `IndexError`, which the surrounding `try` absorbs,
leaving the store unchanged. -/
def button_callback (store : Store) (callback_data : String) (userId : Nat) : Store :=
  match pySplit '|' callback_data with
  | action :: movie_name :: _ =>
    if action = "response_no" then negFeedback store movie_name userId else store
  | _ => store

/-- The `callback_data` the search handler attaches to the "❌ No" button
(src/bot.py line 146). -/
def noCallbackData (movie_name : String) : String :=
  "response_no|" ++ movie_name

/-- The movie name under which the `response_no` branch records the request:
field 1 of `query.data.split("|")`, i.e. the part of the queried name that
comes before its first `"|"`. -/
def storedKey (movie_name : String) : String :=
  ((pySplitChars '|' movie_name.toList).headD []).asString

/-- An HTTP response, with its body pre-classified: `jsonBody = none` means
the body does not parse as a JSON object of string pairs. -/
structure HttpResponse where
  status_code : Nat
  jsonBody : Option (List (String × String))

/-- Outcome of `requests.get(JSON_URL)`: either the request itself raised a
`RequestException`, or a response arrived. -/
inductive FetchInput
  | requestError
  | response (r : HttpResponse)

/-- `fetch_movie_data` (src/bot.py lines 29-36).  `raise_for_status()` raises
`HTTPError` for a 4xx/5xx status and `response.json()` raises
`JSONDecodeError` on an unparsable body; both are `RequestException`s, so the
`except` clause turns every failure into `{}`. -/
def fetch_movie_data : FetchInput → List (String × String)
  | .requestError => []
  | .response r =>
    if 400 ≤ r.status_code then []
    else
      match r.jsonBody with
      | some m => m
      | none => []

/-- `fuzzywuzzy.process.extract(query, choices, limit)` with the scorer kept
abstract: score every choice, order by descending score (stable), keep the
first `limit`.  `process.extract` applies no score cutoff. -/
def extract (scorer : String → String → Nat) (query : String) (choices : List String)
    (limit : Nat) : List (String × Nat) :=
  ((choices.map fun c => (c, scorer query c)).mergeSort fun a b => decide (b.2 ≤ a.2)).take limit

/-- What `search_movie` replies for a given message text and fetched catalog. -/
inductive SearchOutcome
  | results (buttons : List (String × String))
  | noResults
deriving Repr, DecidableEq

/-- `search_movie` (src/bot.py lines 104-159) after the subscription gate:
strip the message text, extract up to 5 fuzzy matches over the catalog keys,
turn each match into a (title, link) button via dictionary access, and reply
with the buttons, or with the "no matching movies" message when there are
none. -/
def search_movie (scorer : String → String → Nat) (text : String)
    (movie_data : List (String × String)) : SearchOutcome :=
  let movie_name := text.trim
  let movie_names := movie_data.map Prod.fst
  let found := extract scorer movie_name movie_names 5
  let buttons := found.filterMap fun m => (movie_data.lookup m.1).map fun url => (m.1, url)
  if buttons.isEmpty then .noResults else .results buttons

/-- Reply of `/requests` (src/bot.py lines 193-214). -/
inductive ViewReply
  | notAuthorized
  | noRequestsYet
  | listing (text : String)
deriving Repr, DecidableEq

/-- One record's lines in the `/requests` report (src/bot.py lines 207-210). -/
def renderRequest (r : MovieRequest) : String :=
  "🎥 " ++ r.movie_name ++ " - " ++ toString r.times ++ " requests\n" ++
  "👥 Requested by: " ++ String.intercalate ", " (r.user_requested.map toString) ++ "\n\n"

/-- `view_requests` (src/bot.py lines 193-214): admin gate, then a report over
the full collection.  The store is never written. -/
def view_requests (adminId userId : Nat) (store : Store) : Store × ViewReply :=
  if userId ≠ adminId then (store, .notAuthorized)
  else if store.length = 0 then (store, .noRequestsYet)
  else (store, .listing (store.foldl (fun m r => m ++ renderRequest r) "📋 *Movie Requests:*\n\n"))

/-- Reply of `/broadcast` (src/bot.py lines 245-280). -/
inductive BroadcastReply
  | notAuthorized
  | usage
  | sentAck (joinedNames : String)
  | noRequests
deriving Repr, DecidableEq

/-- Python `set.update(xs)` on a deduplicated list model of the set. -/
def setUpdate (acc : List Nat) (xs : List Nat) : List Nat :=
  xs.foldl (fun a u => if u ∈ a then a else a ++ [u]) acc

/-- The `user_ids` accumulation loop of `broadcast` (src/bot.py lines 261-267):
for each comma-separated name, look up its record by the stripped name and
union in its `user_requested` list. -/
def collectUserIds (store : Store) (names : List String) : List Nat :=
  names.foldl
    (fun acc n =>
      match find_one store n.trim with
      | none => acc
      | some r => setUpdate acc r.user_requested) []

/-- The per-recipient send loop (src/bot.py lines 270-274): each send is
attempted inside `try/except`, so a failed delivery is logged and the loop
continues.  Returns (delivered, failed-and-logged). -/
def sendLoop (deliver : Nat → Bool) : List Nat → List Nat × List Nat
  | [] => ([], [])
  | u :: rest =>
    let p := sendLoop deliver rest
    if deliver u then (u :: p.1, p.2) else (p.1, u :: p.2)

/-- Complete observable outcome of one `/broadcast` invocation. -/
structure BroadcastResult where
  store : Store
  attempted : List Nat
  delivered : List Nat
  failed : List Nat
  reply : BroadcastReply
deriving Repr, DecidableEq

/-- `broadcast` (src/bot.py lines 245-280): admin gate, usage check, resolve
the union of `user_requested` over the named records, then best-effort
fan-out; with no resolved users it reports "no requests found".  The store is
never written. -/
def broadcast (adminId userId : Nat) (args : List String) (deliver : Nat → Bool)
    (store : Store) : BroadcastResult :=
  if userId ≠ adminId then ⟨store, [], [], [], .notAuthorized⟩
  else if args.length < 2 then ⟨store, [], [], [], .usage⟩
  else
    let movie_names := pySplit ',' (args.headD "")
    let user_ids := collectUserIds store movie_names
    if user_ids.isEmpty then ⟨store, [], [], [], .noRequests⟩
    else
      let p := sendLoop deliver user_ids
      ⟨store, user_ids, p.1, p.2, .sentAck (String.intercalate ", " movie_names)⟩

/-- Reply of `/delete` (src/bot.py lines 283-309). -/
inductive DeleteReply
  | notAuthorized
  | usage
  | feedback (text : String)
deriving Repr, DecidableEq

/-- The deletion loop of `delete_movies` (src/bot.py lines 298-305): strip
each name, `delete_one` it, and append a per-name success/not-found line. -/
def deleteFold (store : Store) (msg : String) : List String → Store × String
  | [] => (store, msg)
  | n :: rest =>
    let nm := n.trim
    let p := delete_one store nm
    let line := if p.2 > 0 then "✅ " ++ nm ++ "\n" else "❌ " ++ nm ++ " not found in the database.\n"
    deleteFold p.1 (msg ++ line) rest

/-- `delete_movies` (src/bot.py lines 283-309): admin gate, usage check, then
the per-name deletion loop. -/
def delete_movies (adminId userId : Nat) (args : List String) (store : Store) :
    Store × DeleteReply :=
  if userId ≠ adminId then (store, .notAuthorized)
  else if args.length = 0 then (store, .usage)
  else
    let p := deleteFold store "📋 Deleting the following movies:\n\n" (pySplit ',' (args.headD ""))
    (p.1, .feedback p.2)

/-- The store-affecting events the bot handles. -/
inductive Op
  | callbackPress (payload : String) (userId : Nat)
  | viewReq (userId : Nat)
  | bcast (userId : Nat) (args : List String) (deliver : Nat → Bool)
  | deleteCmd (userId : Nat) (args : List String)

/-- The store after handling one event. -/
def applyOp (adminId : Nat) (store : Store) : Op → Store
  | .callbackPress p u => button_callback store p u
  | .viewReq u => (view_requests adminId u store).1
  | .bcast u args d => (broadcast adminId u args d store).store
  | .deleteCmd u args => (delete_movies adminId u args store).1

/-- Stores reachable from the empty collection by handling events. -/
inductive Reachable (adminId : Nat) : Store → Prop
  | init : Reachable adminId []
  | step {s : Store} (op : Op) : Reachable adminId s → Reachable adminId (applyOp adminId s op)

/-- Per-record invariant: no duplicate requesters, and `times` equals the
cardinality of `user_requested`. -/
def RecordInv (r : MovieRequest) : Prop :=
  r.user_requested.Nodup ∧ r.times = r.user_requested.length

/-- Store invariant: every record satisfies `RecordInv`, and movie names are
pairwise distinct (so `find_one` addresses a unique record). -/
def StoreInv (s : Store) : Prop :=
  (∀ r ∈ s, RecordInv r) ∧ (s.map MovieRequest.movie_name).Nodup

/-- A concrete scorer used to instantiate the abstract fuzzy scorer in
witness instances. -/
def wScorer : String → String → Nat := fun _ c => c.length

/-- A concrete catalog used in witness instances; its six titles have
pairwise-distinct `wScorer` scores, in decreasing order. -/
def wCatalog : List (String × String) :=
  [("aaaaaa", "u1"), ("bbbbb", "u2"), ("cccc", "u3"), ("ddd", "u4"),
    ("ee", "u5"), ("f", "u6")]

/-! ### Basic properties of `find_one` and `update_one` -/

theorem find_one_name {s : Store} {n : String} {r : MovieRequest}
    (h : find_one s n = some r) : r.movie_name = n := by
  have := List.find?_some h
  simpa using this

theorem find_one_cons_self {x : MovieRequest} {n : String} (h : x.movie_name = n)
    (t : Store) : find_one (x :: t) n = some x :=
  List.find?_cons_of_pos _ (by simp [h])

theorem find_one_cons_ne {x : MovieRequest} {n : String} (h : x.movie_name ≠ n)
    (t : Store) : find_one (x :: t) n = find_one t n :=
  List.find?_cons_of_neg _ (by simp [h])

theorem find_one_none_iff {s : Store} {n : String} :
    find_one s n = none ↔ ∀ r ∈ s, r.movie_name ≠ n := by
  simp [find_one]

theorem find_one_append_some {s t : Store} {n : String} {r : MovieRequest}
    (h : find_one s n = some r) : find_one (s ++ t) n = some r := by
  unfold find_one at *
  rw [List.find?_append, h]
  rfl

theorem find_one_append_of_none {s t : Store} {n : String}
    (h : find_one s n = none) : find_one (s ++ t) n = find_one t n := by
  unfold find_one at *
  rw [List.find?_append, h]
  rfl

/-- Decomposition of a successful `find_one`: the store splits into a prefix
with no matching name, the found record, and a suffix; `update_one` rewrites
exactly the found record. -/
theorem find_one_decomp {s : Store} {n : String} {r : MovieRequest}
    (h : find_one s n = some r) :
    ∃ l₁ l₂, s = l₁ ++ r :: l₂ ∧ (∀ x ∈ l₁, x.movie_name ≠ n) ∧ r.movie_name = n ∧
      ∀ f, update_one s n f = l₁ ++ f r :: l₂ := by
  induction s with
  | nil => simp [find_one] at h
  | cons a t ih =>
    by_cases ha : a.movie_name = n
    · rw [find_one_cons_self ha] at h
      cases h
      exact ⟨[], t, rfl, by simp, ha, fun f => by simp [update_one, ha]⟩
    · rw [find_one_cons_ne ha] at h
      obtain ⟨l₁, l₂, rfl, hl₁, hr, hupd⟩ := ih h
      refine ⟨a :: l₁, l₂, rfl, ?_, hr, fun f => ?_⟩
      · intro x hx
        rcases List.mem_cons.mp hx with rfl | hx
        · exact ha
        · exact hl₁ x hx
      · simp only [update_one, List.cons_append]
        rw [if_neg (by simp [ha])]
        rw [hupd f]

theorem find_one_update_self {s : Store} {n : String} {r : MovieRequest}
    (h : find_one s n = some r) {f : MovieRequest → MovieRequest}
    (hf : (f r).movie_name = n) :
    find_one (update_one s n f) n = some (f r) := by
  obtain ⟨l₁, l₂, rfl, hl₁, hr, hupd⟩ := find_one_decomp h
  rw [hupd f, find_one_append_of_none (find_one_none_iff.mpr hl₁),
    find_one_cons_self hf]

theorem find_one_update_ne {s : Store} {n m : String}
    {f : MovieRequest → MovieRequest} (hmn : m ≠ n)
    (hf : ∀ r, (f r).movie_name = r.movie_name) :
    find_one (update_one s n f) m = find_one s m := by
  induction s with
  | nil => rfl
  | cons a t ih =>
    simp only [update_one]
    by_cases ha : a.movie_name = n
    · rw [if_pos (by simp [ha])]
      rw [find_one_cons_ne (x := f a) (by rw [hf a, ha]; exact fun e => hmn e.symm) t,
        find_one_cons_ne (x := a) (by rw [ha]; exact fun e => hmn e.symm) t]
    · rw [if_neg (by simp [ha])]
      by_cases ham : a.movie_name = m
      · rw [find_one_cons_self ham, find_one_cons_self ham]
      · rw [find_one_cons_ne ham, find_one_cons_ne ham, ih]

/-! ### The three branches of the negative-feedback handler -/

theorem negFeedback_of_none {s : Store} {n : String} {u : Nat}
    (h : find_one s n = none) : negFeedback s n u = s ++ [⟨n, 1, [u]⟩] := by
  simp [negFeedback, h]

theorem negFeedback_of_mem {s : Store} {n : String} {u : Nat} {r : MovieRequest}
    (h : find_one s n = some r) (hu : u ∈ r.user_requested) :
    negFeedback s n u = s := by
  simp [negFeedback, h, hu]

theorem negFeedback_of_not_mem {s : Store} {n : String} {u : Nat} {r : MovieRequest}
    (h : find_one s n = some r) (hu : u ∉ r.user_requested) :
    negFeedback s n u = update_one s n (applyNoUpdate u) := by
  simp [negFeedback, h, hu]

theorem find_one_negFeedback_not_mem {s : Store} {n : String} {u : Nat}
    {r : MovieRequest} (h : find_one s n = some r) (hu : u ∉ r.user_requested) :
    find_one (negFeedback s n u) n =
      some ⟨n, r.times + 1, r.user_requested ++ [u]⟩ := by
  rw [negFeedback_of_not_mem h hu]
  have : applyNoUpdate u r = ⟨n, r.times + 1, r.user_requested ++ [u]⟩ := by
    simp [applyNoUpdate, addToSet, hu, find_one_name h]
  rw [find_one_update_self h (by rw [this]), this]

/-- C3 helper: after one negative feedback from `u` on `n`, the record found
under `n` contains `u`. -/
theorem mem_find_one_negFeedback {s : Store} {n : String} {u : Nat} :
    ∃ r, find_one (negFeedback s n u) n = some r ∧ u ∈ r.user_requested := by
  cases h : find_one s n with
  | none =>
    refine ⟨⟨n, 1, [u]⟩, ?_, by simp⟩
    rw [negFeedback_of_none h, find_one_append_of_none h, find_one_cons_self rfl]
  | some r =>
    by_cases hu : u ∈ r.user_requested
    · exact ⟨r, by rw [negFeedback_of_mem h hu]; exact h, hu⟩
    · exact ⟨⟨n, r.times + 1, r.user_requested ++ [u]⟩,
        find_one_negFeedback_not_mem h hu, by simp⟩

/-- C1: the three branch behaviours of the negative-feedback handler, and the
two-distinct-users consequence on a fresh title. -/
theorem negFeedback_spec (s : Store) (n : String) (u u₁ u₂ : Nat) :
    (find_one s n = none → negFeedback s n u = s ++ [⟨n, 1, [u]⟩])
    ∧ (∀ r, find_one s n = some r → u ∉ r.user_requested →
        find_one (negFeedback s n u) n =
          some ⟨n, r.times + 1, r.user_requested ++ [u]⟩)
    ∧ (∀ r, find_one s n = some r → u ∈ r.user_requested → negFeedback s n u = s)
    ∧ (find_one s n = none → u₁ ≠ u₂ →
        find_one (negFeedback (negFeedback s n u₁) n u₂) n = some ⟨n, 2, [u₁, u₂]⟩) := by
  refine ⟨fun h => negFeedback_of_none h,
    fun r h hu => find_one_negFeedback_not_mem h hu,
    fun r h hu => negFeedback_of_mem h hu,
    fun h hne => ?_⟩
  have h₁ : find_one (negFeedback s n u₁) n = some ⟨n, 1, [u₁]⟩ := by
    rw [negFeedback_of_none h, find_one_append_of_none h, find_one_cons_self rfl]
  have h₂ := find_one_negFeedback_not_mem h₁ (by simpa using fun e => hne e.symm)
  simpa using h₂

/-- C1 witness: two distinct users on a fresh title in the empty store. -/
theorem negFeedback_spec_witness :
    find_one (negFeedback (negFeedback [] "m" 1) "m" 2) "m" = some ⟨"m", 2, [1, 2]⟩ :=
  (negFeedback_spec [] "m" 0 1 2).2.2.2 rfl (by decide)

/-- C3: negative feedback is idempotent per (user, movie name); the same holds
for the whole callback handler on any payload. -/
theorem negFeedback_idem (s : Store) (n : String) (u : Nat) (p : String) :
    negFeedback (negFeedback s n u) n u = negFeedback s n u
    ∧ button_callback (button_callback s p u) p u = button_callback s p u := by
  have key : ∀ (s : Store) (n : String) (u : Nat),
      negFeedback (negFeedback s n u) n u = negFeedback s n u := by
    intro s n u
    obtain ⟨r, hr, hu⟩ := mem_find_one_negFeedback (s := s) (n := n) (u := u)
    exact negFeedback_of_mem hr hu
  refine ⟨key s n u, ?_⟩
  unfold button_callback
  cases pySplit '|' p with
  | nil => rfl
  | cons a t =>
    cases t with
    | nil => rfl
    | cons b t₂ =>
      by_cases ha : a = "response_no"
      · simp only [if_pos ha]
        exact key s b u
      · simp only [if_neg ha]

/-! ### Preservation of the store invariant -/

theorem storeInv_nil : StoreInv [] := ⟨by simp, by simp⟩

theorem negFeedback_storeInv {s : Store} {n : String} {u : Nat}
    (h : StoreInv s) : StoreInv (negFeedback s n u) := by
  obtain ⟨hrec, hnames⟩ := h
  cases hfind : find_one s n with
  | none =>
    rw [negFeedback_of_none hfind]
    refine ⟨?_, ?_⟩
    · intro r hr
      rcases List.mem_append.mp hr with hr | hr
      · exact hrec r hr
      · rw [List.mem_singleton] at hr
        subst hr
        exact ⟨List.nodup_singleton u, rfl⟩
    · rw [List.map_append, List.nodup_append]
      refine ⟨hnames, by simp, ?_⟩
      intro a ha hb
      simp only [List.map_cons, List.map_nil, List.mem_singleton] at hb
      rw [List.mem_map] at ha
      obtain ⟨r, hrs, rfl⟩ := ha
      exact (find_one_none_iff.mp hfind r hrs) hb
  | some r =>
    by_cases hu : u ∈ r.user_requested
    · rw [negFeedback_of_mem hfind hu]
      exact ⟨hrec, hnames⟩
    · obtain ⟨l₁, l₂, hs, hl₁, hname, hupd⟩ := find_one_decomp hfind
      rw [negFeedback_of_not_mem hfind hu, hupd]
      have hrmem : r ∈ s := by
        rw [hs]
        exact List.mem_append_right _ (List.mem_cons_self _ _)
      obtain ⟨hnd, htimes⟩ := hrec r hrmem
      have husers : (applyNoUpdate u r).user_requested = r.user_requested ++ [u] := by
        simp [applyNoUpdate, addToSet, hu]
      refine ⟨?_, ?_⟩
      · intro x hx
        rcases List.mem_append.mp hx with hx | hx
        · exact hrec x (by rw [hs]; exact List.mem_append_left _ hx)
        · rcases List.mem_cons.mp hx with rfl | hx
          · refine ⟨?_, ?_⟩
            · rw [husers, List.nodup_append]
              exact ⟨hnd, List.nodup_singleton u,
                fun a ha hb => hu ((List.mem_singleton.mp hb) ▸ ha)⟩
            · rw [husers]
              simp [applyNoUpdate, htimes]
          · exact hrec x
              (by rw [hs]; exact List.mem_append_right _ (List.mem_cons_of_mem _ hx))
      · rw [hs] at hnames
        simpa [applyNoUpdate] using hnames

theorem button_callback_storeInv {s : Store} {p : String} {u : Nat}
    (h : StoreInv s) : StoreInv (button_callback s p u) := by
  unfold button_callback
  cases pySplit '|' p with
  | nil => exact h
  | cons a t =>
    cases t with
    | nil => exact h
    | cons b t₂ =>
      show StoreInv (if a = "response_no" then negFeedback s b u else s)
      by_cases ha : a = "response_no"
      · rw [if_pos ha]
        exact negFeedback_storeInv h
      · rw [if_neg ha]
        exact h

theorem delete_one_sublist (s : Store) (n : String) : (delete_one s n).1.Sublist s := by
  induction s with
  | nil => exact List.Sublist.refl _
  | cons a t ih =>
    simp only [delete_one]
    by_cases ha : a.movie_name = n
    · rw [if_pos (by simp [ha])]
      exact List.sublist_cons_self a t
    · rw [if_neg (by simp [ha])]
      exact ih.cons₂ a

theorem storeInv_sublist {s t : Store} (hsub : t.Sublist s) (h : StoreInv s) :
    StoreInv t :=
  ⟨fun r hr => h.1 r (hsub.subset hr), List.Nodup.sublist (hsub.map _) h.2⟩

theorem deleteFold_sublist (ns : List String) :
    ∀ (s : Store) (msg : String), (deleteFold s msg ns).1.Sublist s := by
  induction ns with
  | nil => intro s msg; exact List.Sublist.refl s
  | cons n rest ih =>
    intro s msg
    exact (ih _ _).trans (delete_one_sublist s n.trim)

theorem view_requests_fst (a u : Nat) (s : Store) : (view_requests a u s).1 = s := by
  unfold view_requests
  split
  · rfl
  · split
    · rfl
    · rfl

theorem broadcast_store (a u : Nat) (args : List String) (d : Nat → Bool) (s : Store) :
    (broadcast a u args d s).store = s := by
  by_cases h₁ : u ≠ a
  · simp only [broadcast, if_pos h₁]
  · by_cases h₂ : args.length < 2
    · simp only [broadcast, if_neg h₁, if_pos h₂]
    · by_cases h₃ : (collectUserIds s (pySplit ',' (args.headD ""))).isEmpty = true
      · simp only [broadcast, if_neg h₁, if_neg h₂, if_pos h₃]
      · simp only [broadcast, if_neg h₁, if_neg h₂, if_neg h₃]

theorem delete_movies_fst_sublist (a u : Nat) (args : List String) (s : Store) :
    (delete_movies a u args s).1.Sublist s := by
  unfold delete_movies
  split
  · exact List.Sublist.refl s
  · split
    · exact List.Sublist.refl s
    · exact deleteFold_sublist _ _ _

theorem applyOp_storeInv {adminId : Nat} {s : Store} (h : StoreInv s) (op : Op) :
    StoreInv (applyOp adminId s op) := by
  cases op with
  | callbackPress p u => exact button_callback_storeInv h
  | viewReq u =>
    show StoreInv (view_requests adminId u s).1
    rw [view_requests_fst]
    exact h
  | bcast u args d =>
    show StoreInv (broadcast adminId u args d s).store
    rw [broadcast_store]
    exact h
  | deleteCmd u args =>
    exact storeInv_sublist (delete_movies_fst_sublist _ _ _ _) h

theorem reachable_storeInv {adminId : Nat} {s : Store} (h : Reachable adminId s) :
    StoreInv s := by
  induction h with
  | init => exact storeInv_nil
  | step op h ih => exact applyOp_storeInv ih op

/-! ### `times` never decreases while a record exists -/

theorem negFeedback_mono {s : Store} {n m : String} {u : Nat} {x y : MovieRequest}
    (hx : find_one s m = some x)
    (hy : find_one (negFeedback s n u) m = some y) : x.times ≤ y.times := by
  cases hfind : find_one s n with
  | none =>
    rw [negFeedback_of_none hfind, find_one_append_some hx] at hy
    cases hy
    exact Nat.le_refl _
  | some r =>
    by_cases hu : u ∈ r.user_requested
    · rw [negFeedback_of_mem hfind hu, hx] at hy
      cases hy
      exact Nat.le_refl _
    · rw [negFeedback_of_not_mem hfind hu] at hy
      by_cases hm : m = n
      · subst hm
        rw [hx] at hfind
        cases hfind
        have hxm : x.movie_name = m := find_one_name hx
        have hname : (applyNoUpdate u x).movie_name = m := hxm
        rw [find_one_update_self hx hname] at hy
        cases hy
        exact Nat.le_succ _
      · rw [find_one_update_ne (f := applyNoUpdate u) hm (fun r => rfl), hx] at hy
        cases hy
        exact Nat.le_refl _

theorem button_callback_mono {s : Store} {p : String} {u : Nat} {m : String}
    {x y : MovieRequest} (hx : find_one s m = some x)
    (hy : find_one (button_callback s p u) m = some y) : x.times ≤ y.times := by
  unfold button_callback at hy
  cases hsplit : pySplit '|' p with
  | nil =>
    simp only [hsplit, hx] at hy
    cases hy
    exact Nat.le_refl _
  | cons a t =>
    cases t with
    | nil =>
      simp only [hsplit, hx] at hy
      cases hy
      exact Nat.le_refl _
    | cons b t₂ =>
      by_cases ha : a = "response_no"
      · simp only [hsplit, if_pos ha] at hy
        exact negFeedback_mono hx hy
      · simp only [hsplit, if_neg ha, hx] at hy
        cases hy
        exact Nat.le_refl _

theorem delete_one_find_one_ne {s : Store} {n m : String} (hmn : m ≠ n) :
    find_one (delete_one s n).1 m = find_one s m := by
  induction s with
  | nil => rfl
  | cons a t ih =>
    simp only [delete_one]
    by_cases ha : a.movie_name = n
    · rw [if_pos (by simp [ha])]
      rw [find_one_cons_ne (x := a) (by rw [ha]; exact fun e => hmn e.symm) t]
    · rw [if_neg (by simp [ha])]
      by_cases ham : a.movie_name = m
      · show find_one (a :: (delete_one t n).1) m = _
        rw [find_one_cons_self ham, find_one_cons_self ham]
      · show find_one (a :: (delete_one t n).1) m = _
        rw [find_one_cons_ne ham, find_one_cons_ne ham, ih]

theorem delete_one_find_one_self {s : Store} {n : String}
    (hnd : (s.map MovieRequest.movie_name).Nodup) :
    find_one (delete_one s n).1 n = none := by
  induction s with
  | nil => rfl
  | cons a t ih =>
    rw [List.map_cons, List.nodup_cons] at hnd
    simp only [delete_one]
    by_cases ha : a.movie_name = n
    · rw [if_pos (by simp [ha])]
      show find_one t n = none
      rw [find_one_none_iff]
      intro r hr hrn
      apply hnd.1
      rw [ha, ← hrn]
      exact List.mem_map_of_mem _ hr
    · rw [if_neg (by simp [ha])]
      show find_one (a :: (delete_one t n).1) n = none
      rw [find_one_cons_ne ha]
      exact ih hnd.2

theorem deleteFold_find_one {ns : List String} :
    ∀ {s : Store} {msg m : String} {y : MovieRequest},
      (s.map MovieRequest.movie_name).Nodup →
      find_one (deleteFold s msg ns).1 m = some y → find_one s m = some y := by
  induction ns with
  | nil =>
    intro s msg m y _ h
    exact h
  | cons n rest ih =>
    intro s msg m y hnd h
    have hnd' : ((delete_one s n.trim).1.map MovieRequest.movie_name).Nodup :=
      List.Nodup.sublist ((delete_one_sublist s n.trim).map _) hnd
    have h' : find_one (delete_one s n.trim).1 m = some y := ih hnd' h
    by_cases hm : m = n.trim
    · subst hm
      rw [delete_one_find_one_self hnd] at h'
      cases h'
    · rw [delete_one_find_one_ne hm] at h'
      exact h'

theorem delete_movies_find_one {a u : Nat} {args : List String} {s : Store}
    {m : String} {y : MovieRequest} (hnd : (s.map MovieRequest.movie_name).Nodup)
    (hy : find_one (delete_movies a u args s).1 m = some y) :
    find_one s m = some y := by
  unfold delete_movies at hy
  split at hy
  · exact hy
  · split at hy
    · exact hy
    · exact deleteFold_find_one hnd hy

/-- C2: on every reachable store, every record has duplicate-free
`requesting_user_ids` and `times` equal to its cardinality; and across any
single operation, a record that exists before and after never sees its
`times` decrease. -/
theorem reachable_invariants {adminId : Nat} {s : Store} (h : Reachable adminId s) :
    (∀ r ∈ s, r.user_requested.Nodup ∧ r.times = r.user_requested.length)
    ∧ (∀ op m x y, find_one s m = some x →
        find_one (applyOp adminId s op) m = some y → x.times ≤ y.times) := by
  have hinv := reachable_storeInv h
  refine ⟨hinv.1, ?_⟩
  intro op m x y hx hy
  cases op with
  | callbackPress p u => exact button_callback_mono hx hy
  | viewReq u =>
    have hy' : find_one (view_requests adminId u s).1 m = some y := hy
    rw [view_requests_fst, hx] at hy'
    cases hy'
    exact Nat.le_refl _
  | bcast u args d =>
    have hy' : find_one (broadcast adminId u args d s).store m = some y := hy
    rw [broadcast_store, hx] at hy'
    cases hy'
    exact Nat.le_refl _
  | deleteCmd u args =>
    have hy' : find_one (delete_movies adminId u args s).1 m = some y := hy
    have := delete_movies_find_one hinv.2 hy'
    rw [hx] at this
    cases this
    exact Nat.le_refl _

/-- C2 witness: the single record of the store reached by one negative
feedback on the empty store satisfies the invariant. -/
theorem reachable_invariants_witness :
    (MovieRequest.mk "m" 1 [5]).user_requested.Nodup ∧
      (MovieRequest.mk "m" 1 [5]).times =
        (MovieRequest.mk "m" 1 [5]).user_requested.length :=
  (@reachable_invariants 99 (applyOp 99 [] (Op.callbackPress "response_no|m" 5))
    (Reachable.step (Op.callbackPress "response_no|m" 5) Reachable.init)).1
    (MovieRequest.mk "m" 1 [5]) (by decide)

/-! ### Search: fuzzy extraction and the `search_movie` outcomes -/

theorem extract_length_le (scorer : String → String → Nat) (query : String)
    (choices : List String) (limit : Nat) :
    (extract scorer query choices limit).length ≤ limit := by
  unfold extract
  rw [List.length_take]
  exact min_le_left _ _

theorem mem_extract {scorer : String → String → Nat} {query : String}
    {choices : List String} {limit : Nat} {p : String × Nat}
    (hp : p ∈ extract scorer query choices limit) :
    p.1 ∈ choices ∧ p.2 = scorer query p.1 := by
  have hp' := List.mem_of_mem_take hp
  rw [List.mem_mergeSort] at hp'
  obtain ⟨c, hc, rfl⟩ := List.mem_map.mp hp'
  exact ⟨hc, rfl⟩

theorem extract_score_ge {scorer : String → String → Nat} {query : String}
    {choices : List String} {limit : Nat} {p : String × Nat} {c : String}
    (hp : p ∈ extract scorer query choices limit) (hc : c ∈ choices)
    (hnot : c ∉ (extract scorer query choices limit).map Prod.fst) :
    scorer query c ≤ p.2 := by
  have htrans : ∀ (a b d : String × Nat),
      (fun a b : String × Nat => decide (b.2 ≤ a.2)) a b →
      (fun a b : String × Nat => decide (b.2 ≤ a.2)) b d →
      (fun a b : String × Nat => decide (b.2 ≤ a.2)) a d := by
    intro a b d hab hbd
    simp only [decide_eq_true_eq] at *
    omega
  have htotal : ∀ (a b : String × Nat),
      ((fun a b : String × Nat => decide (b.2 ≤ a.2)) a b
        || (fun a b : String × Nat => decide (b.2 ≤ a.2)) b a) = true := by
    intro a b
    simp only [Bool.or_eq_true, decide_eq_true_eq]
    omega
  have hsorted := List.sorted_mergeSort htrans htotal
      (choices.map fun c => (c, scorer query c))
  have hsplit := List.take_append_drop limit
      ((choices.map fun c => (c, scorer query c)).mergeSort
        fun a b => decide (b.2 ≤ a.2))
  have hmemc : (c, scorer query c) ∈
      ((choices.map fun c => (c, scorer query c)).mergeSort
        fun a b => decide (b.2 ≤ a.2)) :=
    List.mem_mergeSort.mpr (List.mem_map_of_mem _ hc)
  rw [← hsplit] at hmemc hsorted
  obtain ⟨-, -, hcross⟩ := List.pairwise_append.mp hsorted
  rcases List.mem_append.mp hmemc with hmem | hmem
  · exact absurd (List.mem_map_of_mem Prod.fst hmem) hnot
  · have hle := hcross p hp _ hmem
    simpa using hle

/-- C4: search extracts at most 5 results over the catalog keys; each result
carries its own catalog key and score, and scores at least every score of a
catalog key that was not returned. -/
theorem search_extract_spec (scorer : String → String → Nat) (query : String)
    (catalog : List (String × String)) :
    (extract scorer query (catalog.map Prod.fst) 5).length ≤ 5
    ∧ (∀ p ∈ extract scorer query (catalog.map Prod.fst) 5,
        p.1 ∈ catalog.map Prod.fst ∧ p.2 = scorer query p.1)
    ∧ (∀ p ∈ extract scorer query (catalog.map Prod.fst) 5,
        ∀ c ∈ catalog.map Prod.fst,
          c ∉ (extract scorer query (catalog.map Prod.fst) 5).map Prod.fst →
            scorer query c ≤ p.2) :=
  ⟨extract_length_le _ _ _ _, fun _ hp => mem_extract hp,
    fun _ hp _ hc hnot => extract_score_ge hp hc hnot⟩

theorem wExtract_eval :
    extract wScorer "incepton" (wCatalog.map Prod.fst) 5 =
      [("aaaaaa", 6), ("bbbbb", 5), ("cccc", 4), ("ddd", 3), ("ee", 2)] := by
  unfold extract
  rw [List.mergeSort_of_sorted (by decide)]
  rfl

/-- C4 witness: on the concrete catalog, the unreturned key "f" has a score
dominated by the returned entry ("aaaaaa", 6). -/
theorem search_extract_spec_witness : wScorer "incepton" "f" ≤ 6 :=
  (search_extract_spec wScorer "incepton" wCatalog).2.2 ("aaaaaa", 6)
    (by rw [wExtract_eval]; decide) "f" (by decide)
    (by rw [wExtract_eval]; decide)

theorem search_movie_nil (scorer : String → String → Nat) (text : String) :
    search_movie scorer text [] = SearchOutcome.noResults := by
  unfold search_movie extract
  simp

theorem lookup_isSome_of_mem {l : List (String × String)} {a : String}
    (h : a ∈ l.map Prod.fst) : ∃ b, l.lookup a = some b := by
  induction l with
  | nil => simp at h
  | cons kv t ih =>
    obtain ⟨k, v⟩ := kv
    by_cases hk : a = k
    · exact ⟨v, by simp [List.lookup, hk]⟩
    · have hmem : a ∈ t.map Prod.fst := by
        simp only [List.map_cons, List.mem_cons] at h
        rcases h with h | h
        · exact absurd h hk
        · exact h
      obtain ⟨b, hb⟩ := ih hmem
      have hbeq : (a == k) = false := beq_eq_false_iff_ne.mpr hk
      exact ⟨b, by simp [List.lookup, hbeq, hb]⟩

theorem search_movie_results {scorer : String → String → Nat} {text : String}
    {movie_data : List (String × String)} (h : movie_data ≠ []) :
    ∃ bs, search_movie scorer text movie_data = SearchOutcome.results bs ∧ bs ≠ [] := by
  have key : ∀ (fnd : List (String × Nat)), fnd ≠ [] →
      (∀ p ∈ fnd, p.1 ∈ movie_data.map Prod.fst) →
      ∃ bs,
        (if (fnd.filterMap fun m =>
              (movie_data.lookup m.1).map fun url => (m.1, url)).isEmpty = true
          then SearchOutcome.noResults
          else SearchOutcome.results (fnd.filterMap fun m =>
              (movie_data.lookup m.1).map fun url => (m.1, url)))
          = SearchOutcome.results bs ∧ bs ≠ [] := by
    intro fnd hne hmem
    obtain ⟨p, rest, rfl⟩ := List.exists_cons_of_ne_nil hne
    obtain ⟨url, hurl⟩ := lookup_isSome_of_mem (hmem p (List.mem_cons_self _ _))
    rw [List.filterMap_cons, hurl]
    simp
  have hlen : (extract scorer text.trim (movie_data.map Prod.fst) 5).length =
      min 5 movie_data.length := by
    unfold extract
    rw [List.length_take, List.length_mergeSort, List.length_map, List.length_map]
  have hne5 : extract scorer text.trim (movie_data.map Prod.fst) 5 ≠ [] := by
    intro e
    have h0 : movie_data.length ≠ 0 := fun e0 => h (List.length_eq_zero.mp e0)
    rw [e] at hlen
    simp only [List.length_nil] at hlen
    omega
  exact key (extract scorer text.trim (movie_data.map Prod.fst) 5) hne5
    (fun p hp => (mem_extract hp).1)

/-- C5: any search against an empty catalog takes the "no matching movies"
branch (the model is a total function, so no exception can escape). -/
theorem search_empty_catalog (scorer : String → String → Nat) (text : String) :
    search_movie scorer text [] = SearchOutcome.noResults :=
  search_movie_nil scorer text

/-- C9: the "no results" branch is taken exactly when the fetched catalog is
empty; on any non-empty catalog every query returns at least one result. -/
theorem search_no_results_iff (scorer : String → String → Nat) (text : String)
    (movie_data : List (String × String)) :
    (search_movie scorer text movie_data = SearchOutcome.noResults ↔ movie_data = [])
    ∧ (movie_data ≠ [] →
        ∃ bs, search_movie scorer text movie_data = SearchOutcome.results bs ∧ bs ≠ []) := by
  refine ⟨⟨?_, ?_⟩, fun hne => search_movie_results hne⟩
  · intro hno
    by_contra hne
    obtain ⟨bs, hbs, -⟩ := @search_movie_results scorer text movie_data hne
    rw [hbs] at hno
    exact SearchOutcome.noConfusion hno
  · intro he
    subst he
    exact search_movie_nil scorer text

/-- C9 witness: the concrete non-empty catalog yields a non-empty result list. -/
theorem search_no_results_iff_witness :
    ∃ bs, search_movie wScorer "incepton" wCatalog = SearchOutcome.results bs ∧ bs ≠ [] :=
  (search_no_results_iff wScorer "incepton" wCatalog).2 (by decide)

/-! ### Catalog fetch and the admin gate -/

/-- C6: `fetch_movie_data` never raises: a request failure, an HTTP error
status and an unparsable body each yield the empty mapping; a parsable body
under a success status is returned as the title→link mapping. -/
theorem fetch_movie_data_spec (f : FetchInput) :
    (f = FetchInput.requestError → fetch_movie_data f = [])
    ∧ (∀ r, f = FetchInput.response r → 400 ≤ r.status_code →
        fetch_movie_data f = [])
    ∧ (∀ r, f = FetchInput.response r → r.jsonBody = none →
        fetch_movie_data f = [])
    ∧ (∀ r m, f = FetchInput.response r → r.status_code < 400 →
        r.jsonBody = some m → fetch_movie_data f = m) := by
  refine ⟨?_, ?_, ?_, ?_⟩
  · rintro rfl
    rfl
  · rintro r rfl hr
    show (if 400 ≤ r.status_code then ([] : List (String × String))
        else match r.jsonBody with | some mm => mm | none => []) = []
    rw [if_pos hr]
  · rintro r rfl hb
    show (if 400 ≤ r.status_code then ([] : List (String × String))
        else match r.jsonBody with | some mm => mm | none => []) = []
    split
    · rfl
    · rw [hb]
  · rintro r m rfl hlt hb
    show (if 400 ≤ r.status_code then ([] : List (String × String))
        else match r.jsonBody with | some mm => mm | none => []) = m
    rw [if_neg (by omega), hb]

/-- C6 witness: a 200 response with a parsable body is returned as-is. -/
theorem fetch_movie_data_spec_witness :
    fetch_movie_data (FetchInput.response ⟨200, some [("a", "b")]⟩) = [("a", "b")] :=
  (fetch_movie_data_spec (FetchInput.response ⟨200, some [("a", "b")]⟩)).2.2.2
    ⟨200, some [("a", "b")]⟩ [("a", "b")] rfl (by decide) rfl

/-- C7: each admin operation invoked by a non-admin caller leaves the store
unchanged and replies with the authorization rejection. -/
theorem admin_gate (adminId userId : Nat) (h : userId ≠ adminId)
    (args : List String) (deliver : Nat → Bool) (store : Store) :
    view_requests adminId userId store = (store, ViewReply.notAuthorized)
    ∧ broadcast adminId userId args deliver store =
        ⟨store, [], [], [], BroadcastReply.notAuthorized⟩
    ∧ delete_movies adminId userId args store = (store, DeleteReply.notAuthorized) := by
  refine ⟨?_, ?_, ?_⟩
  · unfold view_requests
    rw [if_pos h]
  · unfold broadcast
    rw [if_pos h]
  · unfold delete_movies
    rw [if_pos h]

/-- C7 witness: a non-admin caller is rejected and the store is untouched. -/
theorem admin_gate_witness :
    view_requests 1 0 [⟨"m", 1, [7]⟩] = ([⟨"m", 1, [7]⟩], ViewReply.notAuthorized) :=
  (admin_gate 1 0 (by decide) ["m", "x"] (fun _ => true) [⟨"m", 1, [7]⟩]).1

/-! ### Broadcast fan-out -/

theorem mem_setUpdate {u : Nat} :
    ∀ {xs acc : List Nat}, u ∈ setUpdate acc xs ↔ u ∈ acc ∨ u ∈ xs := by
  intro xs
  induction xs with
  | nil =>
    intro acc
    simp [setUpdate]
  | cons x t ih =>
    intro acc
    have step : setUpdate acc (x :: t) =
        setUpdate (if x ∈ acc then acc else acc ++ [x]) t := rfl
    rw [step, ih]
    by_cases hx : x ∈ acc
    · rw [if_pos hx]
      simp only [List.mem_cons]
      constructor
      · rintro (h | h)
        · exact Or.inl h
        · exact Or.inr (Or.inr h)
      · rintro (h | h | h)
        · exact Or.inl h
        · exact Or.inl (h ▸ hx)
        · exact Or.inr h
    · rw [if_neg hx]
      simp only [List.mem_append, List.mem_singleton, List.mem_cons]
      constructor
      · rintro ((h | h) | h)
        · exact Or.inl h
        · rcases h with h | h
          · exact Or.inr (Or.inl h)
          · cases h
        · exact Or.inr (Or.inr h)
      · rintro (h | h | h)
        · exact Or.inl (Or.inl h)
        · exact Or.inl (Or.inr (Or.inl h))
        · exact Or.inr h

theorem mem_collect_aux {store : Store} {u : Nat} :
    ∀ (names : List String) (acc : List Nat),
      (u ∈ names.foldl (fun acc n =>
        match find_one store n.trim with
        | none => acc
        | some r => setUpdate acc r.user_requested) acc
      ↔ u ∈ acc ∨ ∃ n ∈ names, ∃ r,
          find_one store n.trim = some r ∧ u ∈ r.user_requested) := by
  intro names
  induction names with
  | nil =>
    intro acc
    simp
  | cons n rest ih =>
    intro acc
    rw [List.foldl_cons, ih]
    cases hf : find_one store n.trim with
    | none =>
      simp only [hf]
      constructor
      · rintro (h | h)
        · exact Or.inl h
        · obtain ⟨n', hn', hr⟩ := h
          exact Or.inr ⟨n', List.mem_cons_of_mem _ hn', hr⟩
      · rintro (h | ⟨n', hn', r, hr, hu⟩)
        · exact Or.inl h
        · rcases List.mem_cons.mp hn' with rfl | hn'
          · rw [hf] at hr
            cases hr
          · exact Or.inr ⟨n', hn', r, hr, hu⟩
    | some r =>
      simp only [hf, mem_setUpdate]
      constructor
      · rintro ((h | h) | h)
        · exact Or.inl h
        · exact Or.inr ⟨n, List.mem_cons_self _ _, r, hf, h⟩
        · obtain ⟨n', hn', hr⟩ := h
          exact Or.inr ⟨n', List.mem_cons_of_mem _ hn', hr⟩
      · rintro (h | ⟨n', hn', r', hr', hu⟩)
        · exact Or.inl (Or.inl h)
        · rcases List.mem_cons.mp hn' with rfl | hn'
          · rw [hf] at hr'
            cases hr'
            exact Or.inl (Or.inr hu)
          · exact Or.inr ⟨n', hn', r', hr', hu⟩

theorem mem_collectUserIds {store : Store} {names : List String} {u : Nat} :
    u ∈ collectUserIds store names ↔
      ∃ n ∈ names, ∃ r, find_one store n.trim = some r ∧ u ∈ r.user_requested := by
  have h := @mem_collect_aux store u names []
  simpa using h

theorem sendLoop_cons (deliver : Nat → Bool) (x : Nat) (t : List Nat) :
    sendLoop deliver (x :: t) =
      if deliver x then (x :: (sendLoop deliver t).1, (sendLoop deliver t).2)
      else ((sendLoop deliver t).1, x :: (sendLoop deliver t).2) := rfl

theorem sendLoop_mem {deliver : Nat → Bool} :
    ∀ {l : List Nat} {u : Nat}, u ∈ l →
      (deliver u = true → u ∈ (sendLoop deliver l).1)
      ∧ (deliver u = false → u ∈ (sendLoop deliver l).2) := by
  intro l
  induction l with
  | nil =>
    intro u h
    cases h
  | cons x t ih =>
    intro u h
    rw [sendLoop_cons]
    rcases List.mem_cons.mp h with rfl | h
    · constructor
      · intro hd
        rw [if_pos hd]
        exact List.mem_cons_self _ _
      · intro hd
        rw [if_neg (by simp [hd])]
        exact List.mem_cons_self _ _
    · have hih := ih h
      constructor
      · intro hd
        by_cases hx : deliver x = true
        · rw [if_pos hx]
          exact List.mem_cons_of_mem _ (hih.1 hd)
        · rw [if_neg hx]
          exact hih.1 hd
      · intro hd
        by_cases hx : deliver x = true
        · rw [if_pos hx]
          exact hih.2 hd
        · rw [if_neg hx]
          exact List.mem_cons_of_mem _ (hih.2 hd)

/-- C8: an admin broadcast resolves exactly the union of `user_requested`
over the records found under the comma-separated (stripped) names; when no
named movie has a record it attempts zero sends and reports "no requests
found"; and every resolved user is attempted — a failed delivery lands in
the logged `failed` list without stopping the others. -/
theorem broadcast_spec (adminId : Nat) (args : List String) (deliver : Nat → Bool)
    (store : Store) (h : 2 ≤ args.length) :
    (∀ u, u ∈ (broadcast adminId adminId args deliver store).attempted ↔
      ∃ n ∈ pySplit ',' (args.headD ""), ∃ r,
        find_one store n.trim = some r ∧ u ∈ r.user_requested)
    ∧ ((∀ n ∈ pySplit ',' (args.headD ""), find_one store n.trim = none) →
        broadcast adminId adminId args deliver store =
          ⟨store, [], [], [], BroadcastReply.noRequests⟩)
    ∧ (∀ u ∈ (broadcast adminId adminId args deliver store).attempted,
        (deliver u = true →
          u ∈ (broadcast adminId adminId args deliver store).delivered)
        ∧ (deliver u = false →
          u ∈ (broadcast adminId adminId args deliver store).failed)) := by
  have hgate : ¬adminId ≠ adminId := fun hh => hh rfl
  have hlen : ¬args.length < 2 := by omega
  have hb : broadcast adminId adminId args deliver store =
      (if (collectUserIds store (pySplit ',' (args.headD ""))).isEmpty = true
        then ⟨store, [], [], [], BroadcastReply.noRequests⟩
        else ⟨store, collectUserIds store (pySplit ',' (args.headD "")),
          (sendLoop deliver (collectUserIds store (pySplit ',' (args.headD "")))).1,
          (sendLoop deliver (collectUserIds store (pySplit ',' (args.headD "")))).2,
          BroadcastReply.sentAck
            (String.intercalate ", " (pySplit ',' (args.headD "")))⟩) := by
    simp only [broadcast, if_neg hgate, if_neg hlen]
  by_cases hempty : (collectUserIds store (pySplit ',' (args.headD ""))).isEmpty = true
  · have hcoll : collectUserIds store (pySplit ',' (args.headD "")) = [] :=
      List.isEmpty_iff.mp hempty
    rw [hb, if_pos hempty]
    refine ⟨?_, fun _ => rfl, ?_⟩
    · intro u
      constructor
      · intro hu
        exact absurd hu (List.not_mem_nil u)
      · rintro ⟨n, hn, r, hr, hu⟩
        exfalso
        have hm : u ∈ collectUserIds store (pySplit ',' (args.headD "")) :=
          mem_collectUserIds.mpr ⟨n, hn, r, hr, hu⟩
        rw [hcoll] at hm
        exact absurd hm (List.not_mem_nil u)
    · intro u hu
      exact absurd hu (List.not_mem_nil u)
  · rw [hb, if_neg hempty]
    refine ⟨?_, ?_, ?_⟩
    · intro u
      exact mem_collectUserIds
    · intro hall
      exfalso
      apply hempty
      have hcoll : collectUserIds store (pySplit ',' (args.headD "")) = [] := by
        rw [List.eq_nil_iff_forall_not_mem]
        intro u hu
        rw [mem_collectUserIds] at hu
        obtain ⟨n, hn, r, hr, -⟩ := hu
        rw [hall n hn] at hr
        cases hr
      rw [hcoll]
      rfl
    · intro u hu
      exact sendLoop_mem hu

/-- C8 witness: broadcasting over an empty store attempts zero sends and
reports "no requests found". -/
theorem broadcast_spec_witness :
    broadcast 0 0 ["m1,m2", "hello"] (fun _ => false) [] =
      ⟨[], [], [], [], BroadcastReply.noRequests⟩ :=
  (broadcast_spec 0 ["m1,m2", "hello"] (fun _ => false) [] (by decide)).2.1
    (fun _ _ => rfl)

/-! ### Callback payload round-trip and the `"|"` delimiter -/

theorem pySplitChars_cons (sep c : Char) (cs : List Char) :
    pySplitChars sep (c :: cs) =
      if c = sep then [] :: pySplitChars sep cs
      else
        match pySplitChars sep cs with
        | [] => [[c]]
        | h :: t => (c :: h) :: t := rfl

theorem pySplitChars_ne_nil (sep : Char) (l : List Char) :
    pySplitChars sep l ≠ [] := by
  induction l with
  | nil => simp [pySplitChars]
  | cons c cs ih =>
    rw [pySplitChars_cons]
    by_cases hc : c = sep
    · rw [if_pos hc]
      simp
    · rw [if_neg hc]
      cases h : pySplitChars sep cs with
      | nil => simp
      | cons hh tt => simp

theorem pySplitChars_no_sep {sep : Char} {l : List Char}
    (h : ∀ c ∈ l, c ≠ sep) : pySplitChars sep l = [l] := by
  induction l with
  | nil => rfl
  | cons c cs ih =>
    rw [pySplitChars_cons, if_neg (h c (List.mem_cons_self _ _)),
      ih (fun x hx => h x (List.mem_cons_of_mem _ hx))]

theorem pySplitChars_append {sep : Char} {l₁ : List Char}
    (h : ∀ c ∈ l₁, c ≠ sep) (rest : List Char) :
    pySplitChars sep (l₁ ++ sep :: rest) = l₁ :: pySplitChars sep rest := by
  induction l₁ with
  | nil =>
    show pySplitChars sep (sep :: rest) = [] :: pySplitChars sep rest
    rw [pySplitChars_cons, if_pos rfl]
  | cons c cs ih =>
    show pySplitChars sep (c :: (cs ++ sep :: rest)) = (c :: cs) :: _
    rw [pySplitChars_cons, if_neg (h c (List.mem_cons_self _ _)),
      ih (fun x hx => h x (List.mem_cons_of_mem _ hx))]

theorem pySplitChars_headD {sep : Char} (l : List Char) :
    (pySplitChars sep l).headD [] = l.takeWhile fun c => decide (c ≠ sep) := by
  induction l with
  | nil => rfl
  | cons c cs ih =>
    rw [pySplitChars_cons]
    by_cases hc : c = sep
    · have htw : List.takeWhile (fun x => decide (x ≠ sep)) (c :: cs) = [] := by
        rw [List.takeWhile_cons]
        simp [hc]
      rw [if_pos hc, htw]
      rfl
    · have htw : List.takeWhile (fun x => decide (x ≠ sep)) (c :: cs) =
          c :: List.takeWhile (fun x => decide (x ≠ sep)) cs := by
        rw [List.takeWhile_cons]
        simp [hc]
      rw [if_neg hc, htw]
      cases h : pySplitChars sep cs with
      | nil => exact absurd h (pySplitChars_ne_nil sep cs)
      | cons hh tt =>
        show c :: hh = c :: List.takeWhile (fun x => decide (x ≠ sep)) cs
        have e := ih
        rw [h] at e
        simp only [List.headD_cons] at e
        rw [e]

theorem pySplit_noCallbackData (name : String) :
    pySplit '|' (noCallbackData name) =
      "response_no" :: (pySplitChars '|' name.toList).map List.asString := by
  unfold pySplit noCallbackData
  have htl : ("response_no|" ++ name).toList =
      "response_no".toList ++ '|' :: name.toList := by
    show ("response_no|" ++ name).data = "response_no".data ++ '|' :: name.data
    rw [String.data_append]
    rfl
  rw [htl, pySplitChars_append (by decide) name.toList, List.map_cons,
    String.asString_toList]

theorem button_callback_noCallbackData (store : Store) (name : String) (u : Nat) :
    button_callback store (noCallbackData name) u =
      negFeedback store (storedKey name) u := by
  unfold button_callback
  rw [pySplit_noCallbackData]
  cases h : pySplitChars '|' name.toList with
  | nil => exact absurd h (pySplitChars_ne_nil _ _)
  | cons hh tt =>
    show (if "response_no" = "response_no"
        then negFeedback store hh.asString u else store)
        = negFeedback store (storedKey name) u
    rw [if_pos rfl]
    unfold storedKey
    rw [h]
    rfl

/-- C10: pressing "❌ No" after querying `name` records the request under
`storedKey name`, the part of `name` before its first `"|"`: this equals
`name` exactly when `name` contains no `"|"`, and is a proper truncation
otherwise. -/
theorem callback_pipe_truncation (store : Store) (name : String) (u : Nat) :
    button_callback store (noCallbackData name) u =
      negFeedback store (storedKey name) u
    ∧ ('|' ∉ name.toList → storedKey name = name)
    ∧ ('|' ∈ name.toList →
        (storedKey name).toList = name.toList.takeWhile (fun c => decide (c ≠ '|'))
        ∧ storedKey name ≠ name) := by
  refine ⟨button_callback_noCallbackData store name u, ?_, ?_⟩
  · intro hno
    unfold storedKey
    rw [pySplitChars_no_sep (by intro c hc e; exact hno (e ▸ hc))]
    show name.toList.asString = name
    exact String.asString_toList name
  · intro hyes
    have hkey : (storedKey name).toList =
        name.toList.takeWhile fun c => decide (c ≠ '|') := by
      unfold storedKey
      rw [pySplitChars_headD]
      exact List.toList_asString _
    refine ⟨hkey, ?_⟩
    intro heq
    have htw : name.toList.takeWhile (fun c => decide (c ≠ '|')) = name.toList := by
      rw [← hkey, heq]
    have hmem : '|' ∈ name.toList.takeWhile fun c => decide (c ≠ '|') := by
      rw [htw]
      exact hyes
    have := List.mem_takeWhile_imp hmem
    simp at this

/-- C10 witness: with the queried name "a|b", the request is recorded under
a key different from "a|b" (namely its part before the first `"|"`). -/
theorem callback_pipe_truncation_witness :
    button_callback [] (noCallbackData "a|b") 3 = negFeedback [] (storedKey "a|b") 3
    ∧ storedKey "a|b" ≠ "a|b" :=
  ⟨(callback_pipe_truncation [] "a|b" 3).1,
    ((callback_pipe_truncation [] "a|b" 3).2.2 (by decide)).2⟩

end MovieBot
